import Mathlib

/-!
# MPD: the rewind input stream and the decoder bridge

A shallow embedding of `src/input/RewindInputStream.cxx` and of the inline
members of `src/decoder/Bridge.hxx`, with the properties stated about them.

C++ exceptions are made explicit: a call that can throw returns its normal
result in an `Option` next to the state the object is left in.  `assert`s are
not part of the behaviour (they vanish under `NDEBUG`); the conditions they
name are stated as predicates and proved where they hold.
-/

namespace MPD

/-- One `std::byte`. -/
abbrev Byte := Fin 256

/-- `sizeof(buffer)` of `RewindInputStream::buffer`, that is `64 * 1024`. -/
def BUFFER_SIZE : Nat := 64 * 1024

/-! ## The wrapped stream -/

/-- The attributes of an `InputStream` that the rewind wrapper looks at.
`readCalls` and `seekCalls` are ghost counters of the calls of its `Read`
and `Seek` methods; no code reads them. -/
structure InputStream where
  offset : Nat
  ready : Bool
  seekable : Bool
  readCalls : Nat
  seekCalls : Nat
deriving DecidableEq

/-- `InputStream::Read` of the wrapped stream, after the shape shared by
`SmbclientInputStream::Read` and `FfmpegInputStream::Read`: the lower layer
delivers some bytes (`avail`, cut to the size of `dest`), the offset advances
by their number; `avail = none` is the call throwing, which leaves the
offset alone. -/
def InputStream.Read (is : InputStream) (destSize : Nat) (avail : Option (List Byte)) :
    Option (List Byte) × InputStream :=
  match avail with
  | none => (none, { is with readCalls := is.readCalls + 1 })
  | some bs =>
    let data := bs.take destSize
    (some data, { is with offset := is.offset + data.length, readCalls := is.readCalls + 1 })

/-- `InputStream::Seek` of the wrapped stream, after the shape of
`SmbclientInputStream::Seek`: the lower layer answers with the resulting
position (`offset = result`), or the call throws (`result = none`) and the
offset is left alone. -/
def InputStream.Seek (is : InputStream) (result : Option Nat) : Bool × InputStream :=
  match result with
  | none => (false, { is with seekCalls := is.seekCalls + 1 })
  | some r => (true, { is with offset := r, seekCalls := is.seekCalls + 1 })

/-! ## RewindInputStream -/

/-- The members of `RewindInputStream`: the wrapped stream `input`, the
wrapper's own `offset` (inherited from `InputStream`), `head`, `tail` and the
buffer, indexed from 0; only the indices below `BUFFER_SIZE` exist in the
C++ array. -/
structure RewindInputStream where
  input : InputStream
  offset : Nat
  head : Nat
  tail : Nat
  buffer : Nat → Byte

/-- The constructor `RewindInputStream(InputStreamPtr _input)`: `tail = 0`,
the offset of a fresh `InputStream` is 0; `head` and the buffer are
uninitialised, which is modelled by zeroes. -/
def RewindInputStream.mk_from (is : InputStream) : RewindInputStream :=
  { input := is, offset := 0, head := 0, tail := 0, buffer := fun _ => 0 }

/-- `RewindInputStream::ReadingFromBuffer`. -/
def RewindInputStream.ReadingFromBuffer (s : RewindInputStream) : Bool :=
  decide (s.tail > 0) && decide (s.offset < s.input.offset)

/-- Modelled from the spec: `ProxyInputStream::CopyAttributes` lives in
`ProxyInputStream.cxx`, which is not among the sources.  The proxy mirrors
the attributes of the wrapped stream once that stream is ready; the one
attribute the rewind logic depends on is the offset. -/
def RewindInputStream.CopyAttributes (s : RewindInputStream) : RewindInputStream :=
  if s.input.ready then { s with offset := s.input.offset } else s

/-- `memcpy(buffer + at, src, src.size())`. -/
def memcpyInto (buffer : Nat → Byte) (pos : Nat) (src : List Byte) : Nat → Byte :=
  fun i => if h : pos ≤ i ∧ i - pos < src.length then src.get ⟨i - pos, h.2⟩ else buffer i

/-- The bytes `buffer[lo, lo + n)`. -/
def bufferSlice (buffer : Nat → Byte) (lo n : Nat) : List Byte :=
  (List.range n).map (fun i => buffer (lo + i))

/-- `RewindInputStream::Read`.  `destSize` is `dest.size()`, `avail` is what
the wrapped stream's `Read` does if it is called.  The result is the bytes
copied to `dest` (`none`: the call threw) and the state afterwards.
`tail - head` is a `size_t` difference in the source; the buffered branch is
entered with `head ≤ tail` in every state considered below, where it is the
difference of naturals. -/
def RewindInputStream.Read (s : RewindInputStream) (destSize : Nat)
    (avail : Option (List Byte)) : Option (List Byte) × RewindInputStream :=
  if s.ReadingFromBuffer then
    /- buffered read -/
    let n := if destSize > s.tail - s.head then s.tail - s.head else destSize
    (some (bufferSlice s.buffer s.head n),
      { s with head := s.head + n, offset := s.offset + n })
  else
    /- pass method call to underlying stream -/
    match s.input.Read destSize avail with
    | (none, input1) => (none, { s with input := input1 })
    | (some data, input1) =>
      let s1 : RewindInputStream := { s with input := input1 }
      let s2 : RewindInputStream :=
        if input1.offset > BUFFER_SIZE then
          /- disable buffering -/
          { s1 with tail := 0 }
        else if s1.tail = s1.offset then
          /- append to buffer -/
          { s1 with buffer := memcpyInto s1.buffer s1.tail data,
                    tail := s1.tail + data.length }
        else s1
      (some data, s2.CopyAttributes)

/-- Modelled from the spec: `ProxyInputStream::Seek` lives in
`ProxyInputStream.cxx`, which is not among the sources.  It forwards the
call to the wrapped stream and, when that returns, mirrors its attributes. -/
def RewindInputStream.ProxySeek (s : RewindInputStream) (result : Option Nat) :
    Bool × RewindInputStream :=
  match s.input.Seek result with
  | (false, input1) => (false, { s with input := input1 })
  | (true, input1) => (true, ({ s with input := input1 } : RewindInputStream).CopyAttributes)

/-- `RewindInputStream::Seek`.  `result` is what the wrapped stream's `Seek`
does if it is called.  The Boolean is `true` when the call returns and
`false` when it throws. -/
def RewindInputStream.Seek (s : RewindInputStream) (new_offset : Nat)
    (result : Option Nat) : Bool × RewindInputStream :=
  if s.tail > 0 ∧ new_offset ≤ s.tail then
    /- buffered seek -/
    (true, { s with head := new_offset, offset := new_offset })
  else
    /- disable the buffer, because input has left the buffered range now -/
    ({ s with tail := 0 } : RewindInputStream).ProxySeek result

/-- What `input_rewind_open` returns: the stream it was given, or a new
`RewindInputStream` owning it. -/
inductive OpenResult where
  | same (is : InputStream)
  | wrapped (r : RewindInputStream)

/-- `input_rewind_open`. -/
def input_rewind_open (is : InputStream) : OpenResult :=
  if is.ready && is.seekable then
    /- seekable resources don't need this plugin -/
    .same is
  else
    .wrapped (RewindInputStream.mk_from is)

/-! ## Sequences of calls -/

/-- One call on a `RewindInputStream`, with what the wrapped stream does if
the call reaches it. -/
inductive Call where
  | read (destSize : Nat) (avail : Option (List Byte))
  | seek (new_offset : Nat) (result : Option Nat)

/-- The state after one call; an exception leaves the object as the
throwing method left it. -/
def RewindInputStream.step (s : RewindInputStream) : Call → RewindInputStream
  | .read d a => (s.Read d a).2
  | .seek o r => (s.Seek o r).2

/-- The state after a sequence of calls. -/
def RewindInputStream.run (s : RewindInputStream) (cs : List Call) : RewindInputStream :=
  cs.foldl RewindInputStream.step s

/-- A sequence of `Read` calls: the bytes they return, in order, and the
state afterwards.  A call that throws returns nothing. -/
def RewindInputStream.ReadAll (s : RewindInputStream) :
    List (Nat × Option (List Byte)) → List Byte × RewindInputStream
  | [] => ([], s)
  | (d, a) :: rest =>
    let r := s.Read d a
    let q := RewindInputStream.ReadAll r.2 rest
    (r.1.getD [] ++ q.1, q.2)

/-- Every read of the sequence starts while the buffer still holds bytes to
replay: `room` of them are left before the first read, and a read with a
`dest` of size `d` takes `d` of them (all of them, if fewer are left). -/
def startsBelow (room : Nat) : List (Nat × Option (List Byte)) → Bool
  | [] => true
  | (d, _) :: rest => decide (0 < room) && startsBelow (room - d) rest

/-- The condition of `assert(tail == (size_t)input->GetOffset())`, which
`Read` checks after appending and `Seek` on a buffered seek. -/
def RewindInputStream.assertTail (s : RewindInputStream) : Prop :=
  s.tail = s.input.offset

instance (s : RewindInputStream) : Decidable s.assertTail := by
  unfold RewindInputStream.assertTail; infer_instance

/-- The bytes a sequence of `Read` calls delivers through a wrapper freshly
constructed over `is`. -/
def delivered (is : InputStream) (reads : List (Nat × Option (List Byte))) : List Byte :=
  ((RewindInputStream.mk_from is).ReadAll reads).1

/-- The wrapper freshly constructed over `is` after a sequence of `Read`
calls. -/
def afterReads (is : InputStream) (reads : List (Nat × Option (List Byte))) :
    RewindInputStream :=
  ((RewindInputStream.mk_from is).ReadAll reads).2

/-- The sum of the `dest` sizes of a sequence of `Read` calls. -/
def requested (reads : List (Nat × Option (List Byte))) : Nat :=
  (reads.map Prod.fst).sum

/-- A ready stream that cannot seek, at its start. -/
def nonSeekable0 : InputStream :=
  { offset := 0, ready := true, seekable := false, readCalls := 0, seekCalls := 0 }

/-- Two reads that deliver the bytes 1, 2, 3, 4. -/
def fourBytes : List (Nat × Option (List Byte)) :=
  [(2, some [1, 2]), (2, some [3, 4, 5])]

/-- Read two bytes, rewind to 0 inside the buffer, seek to 3 (outside the
buffer, so the wrapped stream is asked, and it throws), read two bytes. -/
def failedSeekCalls : List Call :=
  [.read 2 (some [1, 2]), .seek 0 none, .seek 3 none, .read 2 (some [3, 4])]

/-- A wrapper with `tail = 0` over a stream at offset 70000. -/
def farStream : RewindInputStream :=
  { input := { offset := 70000, ready := true, seekable := false,
               readCalls := 0, seekCalls := 0 },
    offset := 70000, head := 0, tail := 0, buffer := fun _ => 0 }

/-- The state a pass-through `Read` leaves when the wrapped stream has
delivered `data`. -/
def RewindInputStream.afterPass (s : RewindInputStream) (data : List Byte) :
    RewindInputStream :=
  let input1 : InputStream :=
    { s.input with offset := s.input.offset + data.length, readCalls := s.input.readCalls + 1 }
  RewindInputStream.CopyAttributes
    (if input1.offset > BUFFER_SIZE then { s with input := input1, tail := 0 }
     else if s.tail = s.offset then
       { s with input := input1, buffer := memcpyInto s.buffer s.tail data,
                tail := s.tail + data.length }
     else { s with input := input1 })

/-- The wrapper has delivered the bytes `b` of the stream from its start and
holds all of them: `tail`, both offsets and `b.length` agree and
`buffer[0, tail)` is `b`. -/
structure Buffered (b : List Byte) (s : RewindInputStream) : Prop where
  ready : s.input.ready = true
  tail_eq : s.tail = b.length
  input_eq : s.input.offset = b.length
  offset_eq : s.offset = b.length
  holds : ∀ i, i < b.length → s.buffer i = b.getD i 0

/-- After a buffered seek: as `Buffered`, with `head` and the wrapper's
offset at `o`. -/
structure Rewound (b : List Byte) (o : Nat) (s : RewindInputStream) : Prop where
  ready : s.input.ready = true
  tail_eq : s.tail = b.length
  input_eq : s.input.offset = b.length
  offset_eq : s.offset = o
  head_eq : s.head = o
  le : o ≤ b.length
  holds : ∀ i, i < b.length → s.buffer i = b.getD i 0

/-- The relation between `tail`, `head` and the two offsets that the
assertions of `Read` and `Seek` rely on: the buffer is within bounds, a
non-empty buffer ends where the wrapped stream stands and the wrapper reads
inside it with `head` at its offset, and with an empty buffer the wrapper
stands where the wrapped stream stands. -/
def RewindInputStream.consistent (s : RewindInputStream) : Prop :=
  s.input.ready = true ∧ s.tail ≤ BUFFER_SIZE ∧
  (0 < s.tail → s.tail = s.input.offset ∧ s.offset ≤ s.tail ∧
    (s.offset < s.tail → s.head = s.offset)) ∧
  (s.tail = 0 → s.offset = s.input.offset)

/-- The call is not a `Seek` during which the wrapped stream throws. -/
def Call.seekReturns : Call → Bool
  | .read _ _ => true
  | .seek _ (some _) => true
  | .seek _ none => false

/-! ## DecoderBridge

`Bridge.hxx` declares the class and defines `Reset`, `CheckFlushChunk` and
`CheckRethrowError` inline; `Bridge.cxx`, `DecoderControl` and `MusicPipe`
are not among the sources, so the remaining members follow sections 3
and 4 of the specification.  Time stamps, the frame counter, the converter
and the tags take no part in the properties below and are left out;
blocking on a full pipe is not modelled. -/

/-- The specification's `Command`: one of NONE, START, STOP, SEEK. -/
inductive DecoderCommand where
  | NONE | START | STOP | SEEK
deriving DecidableEq

/-- What an `std::exception_ptr` points to. -/
structure Error where
  what : String
deriving DecidableEq

/-- The replay-gain values; they are stored, never computed with. -/
structure ReplayGainInfo where
  track : Int
  album : Int
deriving DecidableEq

/-- A buffer: its payload and the replay-gain serial attached to it. -/
structure MusicChunk where
  data : List Byte
  replay_gain_serial : Nat
deriving DecidableEq

/-- Modelled from the spec: `DecoderControl` (`DecoderControl.hxx` is not
among the sources), the CommandChannel of section 4.1 with the pipe of
filled buffers: at most one pending command, the seek target that goes with
SEEK, the seekability recorded by `Ready`, the track's start position.
`acknowledged` is a ghost counter of `Acknowledge` calls. -/
structure DecoderControl where
  command : DecoderCommand
  seek_time : Nat
  start_time : Nat
  seekable : Bool
  seek_error : Bool
  acknowledged : Nat
  pipe : List MusicChunk
deriving DecidableEq

/-- Modelled from the spec: `Acknowledge()` of section 4.1, "clears the
pending command, wakes waiters". -/
def DecoderControl.Acknowledge (dc : DecoderControl) : DecoderControl :=
  { dc with command := .NONE, acknowledged := dc.acknowledged + 1 }

/-- The width of `unsigned`, the type of `replay_gain_serial`. -/
def UNSIGNED_BITS : Nat := 32

/-- The data members of `DecoderBridge` that the properties below are
about, with the names of `Bridge.hxx`. -/
structure DecoderBridge where
  dc : DecoderControl
  initial_seek_pending : Bool
  initial_seek_essential : Bool
  initial_seek_running : Bool
  seeking : Bool
  current_chunk : Option MusicChunk
  replay_gain_info : ReplayGainInfo
  replay_gain_serial : Nat
  error : Option Error
deriving DecidableEq

/-- The constructor, with the default member initialisers of `Bridge.hxx`:
`initial_seek_running = false`, `seeking = false`, `replay_gain_serial = 0`,
no chunk, no error. -/
def DecoderBridge.construct (dc : DecoderControl) (initial_seek_pending : Bool)
    (initial_seek_essential : Bool) : DecoderBridge :=
  { dc := dc, initial_seek_pending := initial_seek_pending,
    initial_seek_essential := initial_seek_essential, initial_seek_running := false,
    seeking := false, current_chunk := none, replay_gain_info := ⟨0, 0⟩,
    replay_gain_serial := 0, error := none }

/-- `DecoderBridge::Reset`: `error = {}`. -/
def DecoderBridge.Reset (b : DecoderBridge) : DecoderBridge :=
  { b with error := none }

/-- `DecoderBridge::CheckRethrowError`: `if (error) std::rethrow_exception(error);`.
The result is the exception thrown, if any, and the bridge afterwards. -/
def DecoderBridge.CheckRethrowError (b : DecoderBridge) : Except Error Unit × DecoderBridge :=
  match b.error with
  | some e => (.error e, b)
  | none => (.ok (), b)

/-- Modelled from the spec: `FlushChunk` (defined in `Bridge.cxx`, not among
the sources) hands the in-progress buffer to the pipe; the current
replay-gain snapshot is attached to it "once it is flushed". -/
def DecoderBridge.FlushChunk (b : DecoderBridge) : DecoderBridge :=
  match b.current_chunk with
  | none => b
  | some c =>
    { b with dc := { b.dc with pipe := b.dc.pipe ++
                       [{ c with replay_gain_serial := b.replay_gain_serial }] },
             current_chunk := none }

/-- `DecoderBridge::CheckFlushChunk`: `if (current_chunk != nullptr) FlushChunk();`. -/
def DecoderBridge.CheckFlushChunk (b : DecoderBridge) : DecoderBridge :=
  if b.current_chunk ≠ none then b.FlushChunk else b

/-- Modelled from the spec: `Ready` (in `Bridge.cxx`) "records seekability
and duration for the controller". -/
def DecoderBridge.Ready (b : DecoderBridge) (seekable : Bool) : DecoderBridge :=
  { b with dc := { b.dc with seekable := seekable } }

/-- Modelled from the spec: `GetCommand` (in `Bridge.cxx`): "If
`InitialSeekState.pending` and seeking is possible, synthesizes SEEK ...
transitioning pending→running.  Otherwise returns CommandChannel's real
pending command, defaulting to NONE." -/
def DecoderBridge.GetCommand (b : DecoderBridge) : DecoderCommand × DecoderBridge :=
  if b.initial_seek_pending && b.dc.seekable then
    (.SEEK, { b with initial_seek_running := true })
  else
    (b.dc.command, b)

/-- Modelled from the spec: `CommandFinished` (in `Bridge.cxx`): "If the
finished command was the synthesized initial seek, transitions
running→!pending (success) and clears `seeking`; if it was a real SEEK,
clears `seeking` and acknowledges on CommandChannel; for other commands,
acknowledges directly." -/
def DecoderBridge.CommandFinished (b : DecoderBridge) : DecoderBridge :=
  if b.initial_seek_running then
    { b with initial_seek_running := false, initial_seek_pending := false, seeking := false }
  else if b.dc.command = .SEEK then
    { b with seeking := false, dc := b.dc.Acknowledge }
  else
    { b with dc := b.dc.Acknowledge }

/-- Modelled from the spec: `GetSeekTime` (in `Bridge.cxx`) "returns the
pending seek target (virtual or real); sets `seeking = true`". -/
def DecoderBridge.GetSeekTime (b : DecoderBridge) : Nat × DecoderBridge :=
  (if b.initial_seek_running then b.dc.start_time else b.dc.seek_time,
    { b with seeking := true })

/-- The error `SeekError` stores when an essential initial seek fails. -/
def seekFailed : Error := ⟨"Decoder failed to seek"⟩

/-- Modelled from the spec: `SeekError` (in `Bridge.cxx`): "If the seek was
the synthesized initial one and `essential` is true, this is promoted to a
fatal error in the error slot ...; if `essential` is false, the failure is
swallowed and `pending` is cleared as if successful; if the seek was a
user-issued real seek, the failure is surfaced to the controller via
acknowledgment without a buffer submission."  In both initial-seek cases the
seek has been attempted and is no longer outstanding, so `pending` and
`running` end false (section 3). -/
def DecoderBridge.SeekError (b : DecoderBridge) : DecoderBridge :=
  if b.initial_seek_running then
    if b.initial_seek_essential then
      { b with initial_seek_running := false, initial_seek_pending := false,
               seeking := false, error := some seekFailed }
    else
      { b with initial_seek_running := false, initial_seek_pending := false, seeking := false }
  else
    { b with seeking := false,
             dc := ({ b.dc with seek_error := true } : DecoderControl).Acknowledge }

/-- Modelled from the spec: one converted byte goes to the in-progress
buffer, "allocating one from the pool if none is active", and the buffer is
flushed "when it reaches capacity". -/
def DecoderBridge.appendByte (capacity : Nat) (b : DecoderBridge) (x : Byte) : DecoderBridge :=
  let c : MusicChunk := (b.current_chunk.getD ⟨[], 0⟩)
  let c1 : MusicChunk := { c with data := c.data ++ [x] }
  let b1 : DecoderBridge := { b with current_chunk := some c1 }
  if c1.data.length ≥ capacity then b1.FlushChunk else b1

/-- Modelled from the spec: `SubmitAudio` (in `Bridge.cxx`): converts the
data, appends it to the in-progress buffer, pushing each buffer that fills
up, and "returns the latest command".  `convert` is the FormatConverter,
`capacity` the size of a buffer. -/
def DecoderBridge.SubmitAudio (capacity : Nat) (convert : List Byte → List Byte)
    (b : DecoderBridge) (audio : List Byte) : DecoderCommand × DecoderBridge :=
  ((convert audio).foldl (DecoderBridge.appendByte capacity) b).GetCommand

/-- Modelled from the spec: `SubmitTag` (in `Bridge.cxx`) "flushes any
in-progress buffer ..., records the tag ..., and returns the latest
command"; the tags themselves are left out. -/
def DecoderBridge.SubmitTag (b : DecoderBridge) : DecoderCommand × DecoderBridge :=
  b.CheckFlushChunk.GetCommand

/-- Modelled from the spec: `SubmitReplayGain` (in `Bridge.cxx`) "updates the
replay-gain snapshot and bumps its serial"; the serial is an `unsigned`, so
the increment is taken modulo `2 ^ UNSIGNED_BITS`.  The model covers the
call with a non-null pointer. -/
def DecoderBridge.SubmitReplayGain (b : DecoderBridge) (info : ReplayGainInfo) :
    DecoderBridge :=
  { b with replay_gain_info := info,
           replay_gain_serial := (b.replay_gain_serial + 1) % 2 ^ UNSIGNED_BITS }

/-- One call on a `DecoderBridge`. -/
inductive BridgeCall where
  | Reset
  | CheckRethrowError
  | CheckFlushChunk
  | Ready (seekable : Bool)
  | GetCommand
  | CommandFinished
  | GetSeekTime
  | SeekError
  | SubmitAudio (capacity : Nat) (convert : List Byte → List Byte) (audio : List Byte)
  | SubmitTag
  | SubmitReplayGain (info : ReplayGainInfo)

/-- The bridge after one call. -/
def DecoderBridge.call (b : DecoderBridge) : BridgeCall → DecoderBridge
  | .Reset => b.Reset
  | .CheckRethrowError => b.CheckRethrowError.2
  | .CheckFlushChunk => b.CheckFlushChunk
  | .Ready s => b.Ready s
  | .GetCommand => b.GetCommand.2
  | .CommandFinished => b.CommandFinished
  | .GetSeekTime => b.GetSeekTime.2
  | .SeekError => b.SeekError
  | .SubmitAudio cap conv audio => (b.SubmitAudio cap conv audio).2
  | .SubmitTag => b.SubmitTag.2
  | .SubmitReplayGain info => b.SubmitReplayGain info

/-- The bridge after a sequence of calls. -/
def DecoderBridge.calls (b : DecoderBridge) (cs : List BridgeCall) : DecoderBridge :=
  cs.foldl DecoderBridge.call b

/-- Is the call a `Reset`? -/
def BridgeCall.isReset : BridgeCall → Bool
  | .Reset => true
  | _ => false

/-- Is the call a `SubmitReplayGain`? -/
def BridgeCall.isSubmitReplayGain : BridgeCall → Bool
  | .SubmitReplayGain _ => true
  | _ => false

/-- A control block with nothing pending and an empty pipe. -/
def idleControl : DecoderControl :=
  { command := .NONE, seek_time := 0, start_time := 30, seekable := false,
    seek_error := false, acknowledged := 0, pipe := [] }

/-- The pipe `q` is the pipe `p` followed by buffers that all carry the
replay-gain serial `serial`. -/
def pipeGrowsWith (serial : Nat) (p q : List MusicChunk) : Prop :=
  ∃ new : List MusicChunk, q = p ++ new ∧ ∀ ch ∈ new, ch.replay_gain_serial = serial

/-- A bridge constructed with a non-essential initial seek, after `Ready` on
a seekable stream and the first `GetCommand`. -/
def optionalSeekRunning : DecoderBridge :=
  (((DecoderBridge.construct idleControl true false).Ready true).GetCommand).2

/-- A bridge whose replay-gain serial has reached `UINT_MAX`. -/
def serialAtMax : DecoderBridge :=
  { DecoderBridge.construct idleControl false false with replay_gain_serial := 4294967295 }

/-- C7: `input_rewind_open` hands back the stream it was given exactly when
that stream is ready and seekable; every other stream comes back wrapped in
a new `RewindInputStream` that owns it and whose buffer is empty
(`tail = 0`). -/
theorem input_rewind_open_unwrapped_iff (is : InputStream) :
    (input_rewind_open is = OpenResult.same is ↔ (is.ready = true ∧ is.seekable = true)) ∧
    (¬ (is.ready = true ∧ is.seekable = true) →
      ∃ r, input_rewind_open is = OpenResult.wrapped r ∧ r.input = is ∧ r.tail = 0) := by
  unfold input_rewind_open
  by_cases h : is.ready = true ∧ is.seekable = true
  · simp [h.1, h.2]
  · have h2 : (is.ready && is.seekable) = false := by
      cases hr : is.ready <;> cases hs : is.seekable <;> simp_all
    simp only [h2, h]
    refine ⟨by simp, fun _ => ⟨RewindInputStream.mk_from is, ?_, rfl, rfl⟩⟩
    simp

theorem CopyAttributes_tail (t : RewindInputStream) : t.CopyAttributes.tail = t.tail := by
  unfold RewindInputStream.CopyAttributes; split <;> rfl

theorem CopyAttributes_buffer (t : RewindInputStream) : t.CopyAttributes.buffer = t.buffer := by
  unfold RewindInputStream.CopyAttributes; split <;> rfl

theorem CopyAttributes_input (t : RewindInputStream) : t.CopyAttributes.input = t.input := by
  unfold RewindInputStream.CopyAttributes; split <;> rfl

theorem CopyAttributes_head (t : RewindInputStream) : t.CopyAttributes.head = t.head := by
  unfold RewindInputStream.CopyAttributes; split <;> rfl

theorem CopyAttributes_offset (t : RewindInputStream) (h : t.input.ready = true) :
    t.CopyAttributes.offset = t.input.offset := by
  unfold RewindInputStream.CopyAttributes; simp [h]

theorem Read_pass (s : RewindInputStream) (destSize : Nat) (bs : List Byte)
    (hpass : s.ReadingFromBuffer = false) :
    s.Read destSize (some bs) = (some (bs.take destSize), s.afterPass (bs.take destSize)) := by
  simp only [RewindInputStream.Read, hpass, InputStream.Read, RewindInputStream.afterPass]
  rfl

theorem Read_pass_throw (s : RewindInputStream) (destSize : Nat)
    (hpass : s.ReadingFromBuffer = false) :
    s.Read destSize none
      = (none, { s with input := { s.input with readCalls := s.input.readCalls + 1 } }) := by
  simp only [RewindInputStream.Read, hpass, InputStream.Read]
  rfl

theorem afterPass_input (s : RewindInputStream) (data : List Byte) :
    (s.afterPass data).input =
      { s.input with offset := s.input.offset + data.length,
                     readCalls := s.input.readCalls + 1 } := by
  unfold RewindInputStream.afterPass
  simp only [CopyAttributes_input]
  split
  · rfl
  · split <;> rfl

theorem afterPass_over (s : RewindInputStream) (data : List Byte)
    (h : s.input.offset + data.length > BUFFER_SIZE) :
    (s.afterPass data).tail = 0 ∧ (s.afterPass data).buffer = s.buffer := by
  unfold RewindInputStream.afterPass
  simp only [CopyAttributes_tail, CopyAttributes_buffer, h, if_true, and_self]

theorem Seek_unbuffered (s : RewindInputStream) (new_offset : Nat) (result : Option Nat)
    (h : s.tail = 0) :
    (s.Seek new_offset result).1 = (s.input.Seek result).1 ∧
    (s.Seek new_offset result).2.input = (s.input.Seek result).2 ∧
    (s.Seek new_offset result).2.input.seekCalls = s.input.seekCalls + 1 ∧
    (s.Seek new_offset result).2.tail = 0 := by
  simp only [RewindInputStream.Seek, h, Nat.lt_irrefl, gt_iff_lt, false_and, if_false,
    RewindInputStream.ProxySeek]
  cases result with
  | none => simp [InputStream.Seek]
  | some r => simp [InputStream.Seek, CopyAttributes_input, CopyAttributes_tail]

/-- C6: a pass-through `Read` that returns with the wrapped stream's offset
above 65536 leaves `tail = 0` and the buffer as it was, and the `Seek` after
it, whatever its target, calls the wrapped stream's `Seek` once and ends as
that call ends. -/
theorem Read_past_threshold_disables_buffer (s : RewindInputStream) (destSize : Nat)
    (bs : List Byte) (hpass : s.ReadingFromBuffer = false)
    (hover : (s.Read destSize (some bs)).2.input.offset > BUFFER_SIZE) :
    (s.Read destSize (some bs)).1 = some (bs.take destSize) ∧
    (s.Read destSize (some bs)).2.tail = 0 ∧
    (s.Read destSize (some bs)).2.buffer = s.buffer ∧
    ∀ (new_offset : Nat) (result : Option Nat),
      ((s.Read destSize (some bs)).2.Seek new_offset result).1
          = ((s.Read destSize (some bs)).2.input.Seek result).1 ∧
      ((s.Read destSize (some bs)).2.Seek new_offset result).2.input
          = ((s.Read destSize (some bs)).2.input.Seek result).2 ∧
      ((s.Read destSize (some bs)).2.Seek new_offset result).2.input.seekCalls
          = (s.Read destSize (some bs)).2.input.seekCalls + 1 ∧
      ((s.Read destSize (some bs)).2.Seek new_offset result).2.tail = 0 := by
  rw [Read_pass s destSize bs hpass] at hover ⊢
  simp only [afterPass_input] at hover
  obtain ⟨ht, hb⟩ := afterPass_over s (bs.take destSize) hover
  exact ⟨rfl, ht, hb, fun new_offset result => Seek_unbuffered _ new_offset result ht⟩

/-- C6 at `farStream`: one byte read through it, then `Seek(0)`. -/
theorem Read_past_threshold_disables_buffer_witness :
    (farStream.Read 1 (some [7])).2.tail = 0 ∧
    ((farStream.Read 1 (some [7])).2.Seek 0 (some 0)).2.input.seekCalls = 1 :=
  ⟨(Read_past_threshold_disables_buffer farStream 1 [7] (by decide) (by decide)).2.1,
   ((Read_past_threshold_disables_buffer farStream 1 [7] (by decide) (by decide)).2.2.2
      0 (some 0)).2.2.1⟩

/-! ### The buffer after reads only -/

theorem Buffered_mk_from (is : InputStream) (h0 : is.offset = 0) (hr : is.ready = true) :
    Buffered [] (RewindInputStream.mk_from is) :=
  ⟨hr, rfl, h0, rfl, fun i hi => by simp at hi⟩

theorem Buffered_not_reading {b : List Byte} {s : RewindInputStream} (h : Buffered b s) :
    s.ReadingFromBuffer = false := by
  simp [RewindInputStream.ReadingFromBuffer, h.offset_eq, h.input_eq]

theorem memcpyInto_below (buffer : Nat → Byte) (pos : Nat) (src : List Byte) (i : Nat)
    (h : i < pos) : memcpyInto buffer pos src i = buffer i := by
  unfold memcpyInto
  rw [dif_neg]
  omega

theorem memcpyInto_at (buffer : Nat → Byte) (pos : Nat) (src : List Byte) (i : Nat)
    (h1 : pos ≤ i) (h2 : i < pos + src.length) :
    memcpyInto buffer pos src i = src.getD (i - pos) 0 := by
  unfold memcpyInto
  have h3 : i - pos < src.length := by omega
  rw [dif_pos ⟨h1, h3⟩, List.getD_eq_getElem _ _ h3]
  rfl

theorem Buffered_afterPass {b : List Byte} {s : RewindInputStream} (h : Buffered b s)
    (data : List Byte) (hle : b.length + data.length ≤ BUFFER_SIZE) :
    Buffered (b ++ data) (s.afterPass data) := by
  have hno : ¬ (s.input.offset + data.length > BUFFER_SIZE) := by rw [h.input_eq]; omega
  have hto : s.tail = s.offset := by rw [h.tail_eq, h.offset_eq]
  have hst : s.afterPass data = RewindInputStream.CopyAttributes
      { s with input := { s.input with offset := s.input.offset + data.length,
                                       readCalls := s.input.readCalls + 1 },
               buffer := memcpyInto s.buffer s.tail data,
               tail := s.tail + data.length } := by
    unfold RewindInputStream.afterPass
    simp only [hno, if_false, hto, if_true]
  rw [hst]
  refine ⟨?_, ?_, ?_, ?_, ?_⟩
  · rw [CopyAttributes_input]; exact h.ready
  · rw [CopyAttributes_tail]; simp [h.tail_eq]
  · rw [CopyAttributes_input]; simp [h.input_eq]
  · rw [CopyAttributes_offset]
    · simp [h.input_eq]
    · exact h.ready
  · intro i hi
    rw [CopyAttributes_buffer]
    show memcpyInto s.buffer s.tail data i = _
    rw [h.tail_eq]
    by_cases hlt : i < b.length
    · rw [memcpyInto_below _ _ _ _ hlt, h.holds i hlt, List.getD_append _ _ _ _ hlt]
    · have hge : b.length ≤ i := Nat.le_of_not_lt hlt
      have hi2 : i < b.length + data.length := by simpa using hi
      rw [memcpyInto_at _ _ _ _ hge hi2, List.getD_append_right _ _ _ _ hge]

theorem Buffered_throw {b : List Byte} {s : RewindInputStream} (h : Buffered b s) :
    Buffered b { s with input := { s.input with readCalls := s.input.readCalls + 1 } } :=
  ⟨h.ready, h.tail_eq, h.input_eq, h.offset_eq, h.holds⟩

theorem Buffered_ReadAll {b : List Byte} {s : RewindInputStream} (h : Buffered b s)
    (reads : List (Nat × Option (List Byte)))
    (hle : b.length + (s.ReadAll reads).1.length ≤ BUFFER_SIZE) :
    Buffered (b ++ (s.ReadAll reads).1) (s.ReadAll reads).2 := by
  induction reads generalizing b s with
  | nil => simpa [RewindInputStream.ReadAll] using h
  | cons r rest ih =>
    obtain ⟨d, a⟩ := r
    cases a with
    | none =>
      simp only [RewindInputStream.ReadAll, Read_pass_throw s d (Buffered_not_reading h),
        Option.getD_none, List.nil_append] at hle ⊢
      exact ih (Buffered_throw h) hle
    | some bs =>
      simp only [RewindInputStream.ReadAll, Read_pass s d bs (Buffered_not_reading h),
        Option.getD_some, List.length_append] at hle ⊢
      have h1 : Buffered (b ++ bs.take d) (s.afterPass (bs.take d)) :=
        Buffered_afterPass h _ (by omega)
      have h2 := ih h1 (by simp only [List.length_append]; omega)
      rw [← List.append_assoc]
      exact h2

theorem Read_unbuffered (s : RewindInputStream) (d : Nat) (a : Option (List Byte))
    (hpass : s.ReadingFromBuffer = false) :
    (s.Read d a).1 = (s.input.Read d a).1 ∧ (s.Read d a).2.input = (s.input.Read d a).2 := by
  cases a with
  | none => rw [Read_pass_throw s d hpass]; exact ⟨rfl, rfl⟩
  | some bs =>
    rw [Read_pass s d bs hpass]
    exact ⟨rfl, afterPass_input s _⟩

theorem Buffered_Seek {b : List Byte} {s : RewindInputStream} (h : Buffered b s)
    (k : Nat) (result : Option Nat) (hn : 1 ≤ b.length) (hk : k ≤ b.length) :
    (s.Seek k result).1 = true ∧ (s.Seek k result).2.input = s.input ∧
      Rewound b k (s.Seek k result).2 := by
  have hc : s.tail > 0 ∧ k ≤ s.tail := by rw [h.tail_eq]; omega
  simp only [RewindInputStream.Seek, hc, and_self, if_true, true_and]
  exact ⟨h.ready, h.tail_eq, h.input_eq, rfl, rfl, hk, h.holds⟩

theorem bufferSlice_eq (buffer : Nat → Byte) (b : List Byte) (o d : Nat)
    (holds : ∀ i, i < b.length → buffer i = b.getD i 0) (ho : o ≤ b.length) :
    bufferSlice buffer o (if d > b.length - o then b.length - o else d) = (b.drop o).take d := by
  apply List.ext_getElem
  · simp only [bufferSlice, List.length_map, List.length_range, List.length_take,
      List.length_drop]
    split <;> omega
  · intro i h1 h2
    simp only [List.length_take, List.length_drop] at h2
    have hi : o + i < b.length := by omega
    simp only [bufferSlice, List.getElem_map, List.getElem_range, List.getElem_take,
      List.getElem_drop]
    rw [holds _ hi, List.getD_eq_getElem _ _ hi]

theorem Read_buffered (s : RewindInputStream) (d : Nat) (a : Option (List Byte))
    (hrd : s.ReadingFromBuffer = true) :
    s.Read d a =
      (some (bufferSlice s.buffer s.head (if d > s.tail - s.head then s.tail - s.head else d)),
        { s with head := s.head + (if d > s.tail - s.head then s.tail - s.head else d),
                 offset := s.offset + (if d > s.tail - s.head then s.tail - s.head else d) }) := by
  simp only [RewindInputStream.Read, hrd, if_true]

theorem Rewound_Read {b : List Byte} {o : Nat} {s : RewindInputStream} (h : Rewound b o s)
    (d : Nat) (a : Option (List Byte)) (ho : o < b.length) :
    (s.Read d a).1 = some ((b.drop o).take d) ∧ (s.Read d a).2.input = s.input ∧
      Rewound b (min (o + d) b.length) (s.Read d a).2 := by
  have hrd : s.ReadingFromBuffer = true := by
    simp only [RewindInputStream.ReadingFromBuffer, h.tail_eq, h.offset_eq, h.input_eq,
      Bool.and_eq_true, decide_eq_true_eq]
    omega
  rw [Read_buffered s d a hrd]
  have hm : (o + if d > b.length - o then b.length - o else d) = min (o + d) b.length := by
    split <;> omega
  refine ⟨?_, rfl, h.ready, h.tail_eq, h.input_eq, ?_, ?_, by omega, h.holds⟩
  · show some _ = _
    rw [h.tail_eq, h.head_eq, bufferSlice_eq s.buffer b o d h.holds h.le]
  · show s.offset + _ = _
    rw [h.offset_eq, h.tail_eq, h.head_eq, hm]
  · show s.head + _ = _
    rw [h.tail_eq, h.head_eq, hm]

theorem Rewound_ReadAll {b : List Byte} {o : Nat} {s : RewindInputStream} (h : Rewound b o s)
    (more : List (Nat × Option (List Byte)))
    (hs : startsBelow (b.length - o) more = true) :
    (s.ReadAll more).1 = (b.drop o).take (more.map Prod.fst).sum ∧
      (s.ReadAll more).2.input = s.input ∧
      Rewound b (min (o + (more.map Prod.fst).sum) b.length) (s.ReadAll more).2 := by
  induction more generalizing o s with
  | nil =>
    have hmin : min (o + 0) b.length = o := by have := h.le; omega
    simp only [RewindInputStream.ReadAll, List.map_nil, List.sum_nil, List.take_zero, hmin]
    exact ⟨trivial, trivial, h⟩
  | cons r rest ih =>
    obtain ⟨d, a⟩ := r
    simp only [startsBelow, Bool.and_eq_true, decide_eq_true_eq] at hs
    have ho : o < b.length := by omega
    obtain ⟨h1, h2, h3⟩ := Rewound_Read h d a ho
    have hroom : b.length - min (o + d) b.length = b.length - o - d := by omega
    obtain ⟨i1, i2, i3⟩ := ih h3 (by rw [hroom]; exact hs.2)
    simp only [RewindInputStream.ReadAll, List.map_cons, List.sum_cons]
    refine ⟨?_, by rw [i2, h2], ?_⟩
    · rw [h1, i1, Option.getD_some]
      by_cases hd : o + d ≤ b.length
      · rw [Nat.min_eq_left hd, List.take_add, List.drop_drop]
      · have hmin : min (o + d) b.length = b.length := by omega
        have hl : (List.drop o b).length ≤ d := by simp only [List.length_drop]; omega
        rw [hmin, List.drop_length, List.take_nil, List.append_nil,
          List.take_of_length_le hl, List.take_of_length_le (by omega)]
    · have hm : min (min (o + d) b.length + (rest.map Prod.fst).sum) b.length
          = min (o + (d + (rest.map Prod.fst).sum)) b.length := by omega
      rw [← hm]
      exact i3

/-- C5: over a ready stream at offset 0, once `Read` calls have delivered the
bytes `b` with `1 ≤ b.length ≤ 65536`, a `Seek(k)` with `k ≤ b.length`
returns without touching the wrapped stream and leaves the offset at `k`;
`Read` calls that start before the offset reaches `b.length` return the bytes
of `b` from `k` on, in order, clipped at the end of `b`, still without
touching the wrapped stream; and once the offset is `b.length` a `Read` is
the wrapped stream's `Read`, at its offset `b.length`. -/
theorem rewind_round_trip (is : InputStream) (reads : List (Nat × Option (List Byte)))
    (k : Nat) (result : Option Nat) (h0 : is.offset = 0) (hr : is.ready = true)
    (hn1 : 1 ≤ (delivered is reads).length) (hn2 : (delivered is reads).length ≤ BUFFER_SIZE)
    (hk : k ≤ (delivered is reads).length) :
    ((afterReads is reads).Seek k result).1 = true ∧
    ((afterReads is reads).Seek k result).2.input = (afterReads is reads).input ∧
    ((afterReads is reads).Seek k result).2.offset = k ∧
    (afterReads is reads).input.offset = (delivered is reads).length ∧
    (∀ more : List (Nat × Option (List Byte)),
      startsBelow ((delivered is reads).length - k) more = true →
      (((afterReads is reads).Seek k result).2.ReadAll more).1
          = ((delivered is reads).drop k).take (requested more) ∧
      (((afterReads is reads).Seek k result).2.ReadAll more).2.input
          = (afterReads is reads).input ∧
      (((afterReads is reads).Seek k result).2.ReadAll more).2.offset
          = min (k + requested more) (delivered is reads).length ∧
      ((delivered is reads).length ≤ k + requested more →
        ∀ (d : Nat) (a : Option (List Byte)),
          ((((afterReads is reads).Seek k result).2.ReadAll more).2.Read d a).1
              = ((afterReads is reads).input.Read d a).1 ∧
          ((((afterReads is reads).Seek k result).2.ReadAll more).2.Read d a).2.input
              = ((afterReads is reads).input.Read d a).2)) := by
  have hB : Buffered (delivered is reads) (afterReads is reads) := by
    have h := Buffered_ReadAll (Buffered_mk_from is h0 hr) reads
      (by simpa [delivered] using hn2)
    simpa [delivered, afterReads] using h
  obtain ⟨s1, s2, s3⟩ := Buffered_Seek hB k result hn1 hk
  refine ⟨s1, s2, s3.offset_eq, hB.input_eq, ?_⟩
  intro more hs
  obtain ⟨r1, r2, r3⟩ := Rewound_ReadAll s3 more hs
  refine ⟨r1, by rw [r2, s2], r3.offset_eq, ?_⟩
  intro hfull d a
  have hoff : min (k + requested more) (delivered is reads).length
      = (delivered is reads).length := Nat.min_eq_right hfull
  have hnr : (((afterReads is reads).Seek k result).2.ReadAll more).2.ReadingFromBuffer
      = false := by
    unfold requested at hoff
    simp only [RewindInputStream.ReadingFromBuffer, r3.offset_eq, r3.input_eq, hoff,
      Nat.lt_irrefl, decide_False, Bool.and_false]
  have hu := Read_unbuffered _ d a hnr
  rw [r2, s2] at hu
  exact hu

/-- C5 at `fourBytes`: after `Seek(1)` two reads return the bytes 2, 3, 4. -/
theorem rewind_round_trip_witness :
    ((afterReads nonSeekable0 fourBytes).Seek 1 none).2.offset = 1 ∧
    (((afterReads nonSeekable0 fourBytes).Seek 1 none).2.ReadAll [(2, none), (5, none)]).1
      = [2, 3, 4] :=
  ⟨(rewind_round_trip nonSeekable0 fourBytes 1 none rfl rfl (by decide) (by decide)
      (by decide)).2.2.1,
   ((rewind_round_trip nonSeekable0 fourBytes 1 none rfl rfl (by decide) (by decide)
      (by decide)).2.2.2.2 [(2, none), (5, none)] (by decide)).1.trans (by decide)⟩

theorem CopyAttributes_ready (t : RewindInputStream) (h : t.input.ready = true) :
    t.CopyAttributes = { t with offset := t.input.offset } := by
  unfold RewindInputStream.CopyAttributes; simp [h]

theorem Read_consistent (s : RewindInputStream) (d : Nat) (a : Option (List Byte))
    (h : s.consistent) : (s.Read d a).2.consistent := by
  obtain ⟨hr, hb, ht, hz⟩ := h
  cases hrd : s.ReadingFromBuffer with
  | true =>
    rw [Read_buffered s d a hrd]
    simp only [RewindInputStream.ReadingFromBuffer, Bool.and_eq_true, decide_eq_true_eq] at hrd
    obtain ⟨t1, t2, t3⟩ := ht hrd.1
    have hh := t3 (by omega)
    refine ⟨hr, hb, fun _ => ⟨t1, ?_, fun _ => ?_⟩, fun h0 => ?_⟩
    · show s.offset + _ ≤ s.tail
      split <;> omega
    · show s.head + _ = s.offset + _
      rw [hh]
    · exact absurd h0 (by have := hrd.1; show ¬ s.tail = 0; omega)
  | false =>
    have hoff : ¬ (0 < s.tail ∧ s.offset < s.input.offset) := by
      simpa [RewindInputStream.ReadingFromBuffer] using hrd
    cases a with
    | none =>
      rw [Read_pass_throw s d hrd]
      exact ⟨hr, hb, ht, hz⟩
    | some bs =>
      rw [Read_pass s d bs hrd]
      unfold RewindInputStream.afterPass
      simp only
      split
      · rw [CopyAttributes_ready _ (by exact hr)]
        exact ⟨hr, Nat.zero_le _, fun h0 => absurd h0 (Nat.lt_irrefl 0), fun _ => rfl⟩
      · rename_i hno
        split
        · rename_i hto
          rw [CopyAttributes_ready _ (by exact hr)]
          have hin : s.tail = s.input.offset := by
            by_cases h0 : 0 < s.tail
            · exact (ht h0).1
            · have h1 : s.tail = 0 := by omega
              rw [hto, hz h1]
          refine ⟨hr, ?_, fun _ => ⟨?_, ?_, fun hlt => ?_⟩, fun h0 => ?_⟩
          · show s.tail + _ ≤ BUFFER_SIZE
            simp only [gt_iff_lt, not_lt] at hno
            omega
          · show s.tail + _ = s.input.offset + _
            rw [hin]
          · show s.input.offset + _ ≤ s.tail + _
            omega
          · exfalso
            have : s.input.offset + (List.take d bs).length
                < s.tail + (List.take d bs).length := hlt
            omega
          · show s.input.offset + _ = s.input.offset + _
            rfl
        · rename_i hto
          rw [CopyAttributes_ready _ (by exact hr)]
          have h1 : s.tail = 0 := by
            by_contra hne
            have hpos : 0 < s.tail := by omega
            obtain ⟨t1, t2, _⟩ := ht hpos
            omega
          exact ⟨hr, hb, fun h0 => absurd h0 (by show ¬ 0 < s.tail; omega), fun _ => rfl⟩

theorem Seek_consistent (s : RewindInputStream) (o r : Nat) (h : s.consistent) :
    (s.Seek o (some r)).2.consistent := by
  obtain ⟨hr, hb, ht, hz⟩ := h
  unfold RewindInputStream.Seek
  split
  · rename_i hc
    obtain ⟨t1, _, _⟩ := ht hc.1
    exact ⟨hr, hb, fun _ => ⟨t1, hc.2, fun _ => rfl⟩,
      fun h0 => absurd h0 (by show ¬ s.tail = 0; omega)⟩
  · simp only [RewindInputStream.ProxySeek, InputStream.Seek]
    rw [CopyAttributes_ready _ (by exact hr)]
    exact ⟨hr, Nat.zero_le _, fun h0 => absurd h0 (Nat.lt_irrefl 0), fun _ => rfl⟩

/-- As long as no `Seek` throws, every state reached from construction over
a ready stream at offset 0 is consistent: `tail ≤ 65536`, and `tail > 0`
implies that `tail` is the wrapped stream's offset and that the wrapper reads
at `head = offset ≤ tail`. -/
theorem run_consistent (is : InputStream) (h0 : is.offset = 0) (hr : is.ready = true)
    (cs : List Call) (hcs : ∀ c ∈ cs, c.seekReturns = true) :
    ((RewindInputStream.mk_from is).run cs).consistent := by
  have hinit : (RewindInputStream.mk_from is).consistent :=
    ⟨hr, Nat.zero_le _, fun h => absurd h (Nat.lt_irrefl 0), fun _ => h0.symm⟩
  suffices H : ∀ (cs : List Call) (s : RewindInputStream), s.consistent →
      (∀ c ∈ cs, c.seekReturns = true) → (s.run cs).consistent from H cs _ hinit hcs
  intro cs
  induction cs with
  | nil => intro s hs _; exact hs
  | cons c cs ih =>
    intro s hs hall
    have hc := hall c (List.mem_cons_self _ _)
    have hstep : (s.step c).consistent := by
      cases c with
      | read d a => exact Read_consistent s d a hs
      | seek o r =>
        cases r with
        | none => simp [Call.seekReturns] at hc
        | some r => exact Seek_consistent s o r hs
    exact ih (s.step c) hstep (fun c' h' => hall c' (List.mem_cons_of_mem _ h'))

/-- C9 at `failedSeekCalls`: after a `Seek` that the wrapped stream refuses,
the next `Read` appends at `tail = 0` although the wrapped stream stands at
offset 2: `tail` is 2 while the wrapped stream's offset is 4, the condition of
`assert(tail == (size_t)input->GetOffset())` fails, `buffer[0]` holds the
stream's third byte, and a rewind to 0 replays the bytes 3, 4 where the
stream began with 1, 2. -/
theorem failed_seek_breaks_buffer_origin :
    ((RewindInputStream.mk_from nonSeekable0).run failedSeekCalls).tail = 2 ∧
    ((RewindInputStream.mk_from nonSeekable0).run failedSeekCalls).input.offset = 4 ∧
    ¬ ((RewindInputStream.mk_from nonSeekable0).run failedSeekCalls).assertTail ∧
    ((RewindInputStream.mk_from nonSeekable0).run failedSeekCalls).buffer 0 = 3 ∧
    (((RewindInputStream.mk_from nonSeekable0).Read 2 (some [1, 2])).1 = some [1, 2]) ∧
    (((((RewindInputStream.mk_from nonSeekable0).run failedSeekCalls).Seek 0 none).2.Read
        2 none).1 = some [3, 4]) := by
  refine ⟨by decide, by decide, by decide, by decide, by decide, by decide⟩

/-! ## Theorems: DecoderBridge -/

theorem FlushChunk_error (b : DecoderBridge) : b.FlushChunk.error = b.error := by
  unfold DecoderBridge.FlushChunk; split <;> rfl

theorem FlushChunk_serial (b : DecoderBridge) :
    b.FlushChunk.replay_gain_serial = b.replay_gain_serial := by
  unfold DecoderBridge.FlushChunk; split <;> rfl

theorem FlushChunk_pending (b : DecoderBridge) :
    b.FlushChunk.initial_seek_pending = b.initial_seek_pending := by
  unfold DecoderBridge.FlushChunk; split <;> rfl

theorem CheckFlushChunk_error (b : DecoderBridge) : b.CheckFlushChunk.error = b.error := by
  unfold DecoderBridge.CheckFlushChunk; split
  · exact FlushChunk_error b
  · rfl

theorem CheckFlushChunk_serial (b : DecoderBridge) :
    b.CheckFlushChunk.replay_gain_serial = b.replay_gain_serial := by
  unfold DecoderBridge.CheckFlushChunk; split
  · exact FlushChunk_serial b
  · rfl

theorem CheckFlushChunk_pending (b : DecoderBridge) :
    b.CheckFlushChunk.initial_seek_pending = b.initial_seek_pending := by
  unfold DecoderBridge.CheckFlushChunk; split
  · exact FlushChunk_pending b
  · rfl

theorem GetCommand_error (b : DecoderBridge) : b.GetCommand.2.error = b.error := by
  unfold DecoderBridge.GetCommand; split <;> rfl

theorem GetCommand_serial (b : DecoderBridge) :
    b.GetCommand.2.replay_gain_serial = b.replay_gain_serial := by
  unfold DecoderBridge.GetCommand; split <;> rfl

theorem GetCommand_pending (b : DecoderBridge) :
    b.GetCommand.2.initial_seek_pending = b.initial_seek_pending := by
  unfold DecoderBridge.GetCommand; split <;> rfl

theorem GetCommand_dc (b : DecoderBridge) : b.GetCommand.2.dc = b.dc := by
  unfold DecoderBridge.GetCommand; split <;> rfl

theorem appendByte_error (cap : Nat) (b : DecoderBridge) (x : Byte) :
    (b.appendByte cap x).error = b.error := by
  unfold DecoderBridge.appendByte
  simp only
  split
  · rw [FlushChunk_error]
  · rfl

theorem appendByte_serial (cap : Nat) (b : DecoderBridge) (x : Byte) :
    (b.appendByte cap x).replay_gain_serial = b.replay_gain_serial := by
  unfold DecoderBridge.appendByte
  simp only
  split
  · rw [FlushChunk_serial]
  · rfl

theorem appendByte_pending (cap : Nat) (b : DecoderBridge) (x : Byte) :
    (b.appendByte cap x).initial_seek_pending = b.initial_seek_pending := by
  unfold DecoderBridge.appendByte
  simp only
  split
  · rw [FlushChunk_pending]
  · rfl

theorem foldl_appendByte (cap : Nat) (xs : List Byte) (b : DecoderBridge) :
    (xs.foldl (DecoderBridge.appendByte cap) b).error = b.error ∧
    (xs.foldl (DecoderBridge.appendByte cap) b).replay_gain_serial = b.replay_gain_serial ∧
    (xs.foldl (DecoderBridge.appendByte cap) b).initial_seek_pending
      = b.initial_seek_pending := by
  induction xs generalizing b with
  | nil => exact ⟨rfl, rfl, rfl⟩
  | cons x xs ih =>
    obtain ⟨h1, h2, h3⟩ := ih (b.appendByte cap x)
    simp only [List.foldl_cons]
    exact ⟨by rw [h1, appendByte_error], by rw [h2, appendByte_serial],
      by rw [h3, appendByte_pending]⟩

/-- No call but `Reset` takes an error out of the slot. -/
theorem call_keeps_error (b : DecoderBridge) (c : BridgeCall) (hc : c.isReset = false)
    (he : b.error ≠ none) : (b.call c).error ≠ none := by
  cases c with
  | Reset => simp [BridgeCall.isReset] at hc
  | CheckRethrowError =>
    simp only [DecoderBridge.call, DecoderBridge.CheckRethrowError]
    split <;> exact he
  | CheckFlushChunk => simpa [DecoderBridge.call, CheckFlushChunk_error] using he
  | Ready s => exact he
  | GetCommand => simpa [DecoderBridge.call, GetCommand_error] using he
  | CommandFinished =>
    simp only [DecoderBridge.call, DecoderBridge.CommandFinished]
    split
    · exact he
    · split <;> exact he
  | GetSeekTime => exact he
  | SeekError =>
    simp only [DecoderBridge.call, DecoderBridge.SeekError]
    split
    · split
      · simp
      · exact he
    · exact he
  | SubmitAudio cap conv audio =>
    simp only [DecoderBridge.call, DecoderBridge.SubmitAudio, GetCommand_error,
      (foldl_appendByte cap (conv audio) b).1]
    exact he
  | SubmitTag =>
    simp only [DecoderBridge.call, DecoderBridge.SubmitTag, GetCommand_error,
      CheckFlushChunk_error]
    exact he
  | SubmitReplayGain info => exact he

/-- No call but `SubmitReplayGain` changes `replay_gain_serial`. -/
theorem call_keeps_serial (b : DecoderBridge) (c : BridgeCall)
    (hc : c.isSubmitReplayGain = false) :
    (b.call c).replay_gain_serial = b.replay_gain_serial := by
  cases c with
  | Reset => rfl
  | CheckRethrowError =>
    simp only [DecoderBridge.call, DecoderBridge.CheckRethrowError]
    split <;> rfl
  | CheckFlushChunk => exact CheckFlushChunk_serial b
  | Ready s => rfl
  | GetCommand => exact GetCommand_serial b
  | CommandFinished =>
    simp only [DecoderBridge.call, DecoderBridge.CommandFinished]
    split
    · rfl
    · split <;> rfl
  | GetSeekTime => rfl
  | SeekError =>
    simp only [DecoderBridge.call, DecoderBridge.SeekError]
    split
    · split <;> rfl
    · rfl
  | SubmitAudio cap conv audio =>
    simp only [DecoderBridge.call, DecoderBridge.SubmitAudio, GetCommand_serial,
      (foldl_appendByte cap (conv audio) b).2.1]
  | SubmitTag =>
    simp only [DecoderBridge.call, DecoderBridge.SubmitTag, GetCommand_serial,
      CheckFlushChunk_serial]
  | SubmitReplayGain info => simp [BridgeCall.isSubmitReplayGain] at hc

/-- No call sets `initial_seek_pending`. -/
theorem call_keeps_not_pending (b : DecoderBridge) (c : BridgeCall)
    (hp : b.initial_seek_pending = false) : (b.call c).initial_seek_pending = false := by
  cases c with
  | Reset => exact hp
  | CheckRethrowError =>
    simp only [DecoderBridge.call, DecoderBridge.CheckRethrowError]
    split <;> exact hp
  | CheckFlushChunk => simpa [DecoderBridge.call, CheckFlushChunk_pending] using hp
  | Ready s => exact hp
  | GetCommand => simpa [DecoderBridge.call, GetCommand_pending] using hp
  | CommandFinished =>
    simp only [DecoderBridge.call, DecoderBridge.CommandFinished]
    split
    · rfl
    · split <;> exact hp
  | GetSeekTime => exact hp
  | SeekError =>
    simp only [DecoderBridge.call, DecoderBridge.SeekError]
    split
    · split <;> rfl
    · exact hp
  | SubmitAudio cap conv audio =>
    simp only [DecoderBridge.call, DecoderBridge.SubmitAudio, GetCommand_pending,
      (foldl_appendByte cap (conv audio) b).2.2]
    exact hp
  | SubmitTag =>
    simp only [DecoderBridge.call, DecoderBridge.SubmitTag, GetCommand_pending,
      CheckFlushChunk_pending]
    exact hp
  | SubmitReplayGain info => exact hp

theorem calls_keep_not_pending (cs : List BridgeCall) (b : DecoderBridge)
    (hp : b.initial_seek_pending = false) : (b.calls cs).initial_seek_pending = false := by
  induction cs generalizing b with
  | nil => exact hp
  | cons c cs ih => exact ih (b.call c) (call_keeps_not_pending b c hp)

theorem pipeGrowsWith_refl (serial : Nat) (p : List MusicChunk) : pipeGrowsWith serial p p :=
  ⟨[], by simp, by simp⟩

theorem pipeGrowsWith_trans {serial : Nat} {p q r : List MusicChunk}
    (h1 : pipeGrowsWith serial p q) (h2 : pipeGrowsWith serial q r) :
    pipeGrowsWith serial p r := by
  obtain ⟨n1, e1, a1⟩ := h1
  obtain ⟨n2, e2, a2⟩ := h2
  refine ⟨n1 ++ n2, by rw [e2, e1, List.append_assoc], ?_⟩
  intro ch hch
  rcases List.mem_append.mp hch with h | h
  · exact a1 ch h
  · exact a2 ch h

theorem FlushChunk_pipe (b : DecoderBridge) :
    pipeGrowsWith b.replay_gain_serial b.dc.pipe b.FlushChunk.dc.pipe := by
  unfold DecoderBridge.FlushChunk
  split
  · exact pipeGrowsWith_refl _ _
  · exact ⟨_, rfl, by simp⟩

theorem CheckFlushChunk_pipe (b : DecoderBridge) :
    pipeGrowsWith b.replay_gain_serial b.dc.pipe b.CheckFlushChunk.dc.pipe := by
  unfold DecoderBridge.CheckFlushChunk
  split
  · exact FlushChunk_pipe b
  · exact pipeGrowsWith_refl _ _

theorem appendByte_pipe (cap : Nat) (b : DecoderBridge) (x : Byte) :
    pipeGrowsWith b.replay_gain_serial b.dc.pipe (b.appendByte cap x).dc.pipe := by
  unfold DecoderBridge.appendByte
  simp only
  split
  · exact FlushChunk_pipe _
  · exact pipeGrowsWith_refl _ _

theorem foldl_appendByte_pipe (cap : Nat) (xs : List Byte) (b : DecoderBridge) :
    pipeGrowsWith b.replay_gain_serial b.dc.pipe
      (xs.foldl (DecoderBridge.appendByte cap) b).dc.pipe := by
  induction xs generalizing b with
  | nil => exact pipeGrowsWith_refl _ _
  | cons x xs ih =>
    have h2 := ih (b.appendByte cap x)
    rw [appendByte_serial] at h2
    exact pipeGrowsWith_trans (appendByte_pipe cap b x) h2

theorem call_pipe (b : DecoderBridge) (c : BridgeCall) :
    pipeGrowsWith b.replay_gain_serial b.dc.pipe (b.call c).dc.pipe := by
  cases c with
  | Reset => exact pipeGrowsWith_refl _ _
  | CheckRethrowError =>
    simp only [DecoderBridge.call, DecoderBridge.CheckRethrowError]
    split <;> exact pipeGrowsWith_refl _ _
  | CheckFlushChunk => exact CheckFlushChunk_pipe b
  | Ready s => exact pipeGrowsWith_refl _ _
  | GetCommand =>
    simp only [DecoderBridge.call, GetCommand_dc]
    exact pipeGrowsWith_refl _ _
  | CommandFinished =>
    simp only [DecoderBridge.call, DecoderBridge.CommandFinished]
    split
    · exact pipeGrowsWith_refl _ _
    · split <;> exact pipeGrowsWith_refl _ _
  | GetSeekTime => exact pipeGrowsWith_refl _ _
  | SeekError =>
    simp only [DecoderBridge.call, DecoderBridge.SeekError]
    split
    · split <;> exact pipeGrowsWith_refl _ _
    · exact pipeGrowsWith_refl _ _
  | SubmitAudio cap conv audio =>
    simp only [DecoderBridge.call, DecoderBridge.SubmitAudio, GetCommand_dc]
    exact foldl_appendByte_pipe cap (conv audio) b
  | SubmitTag =>
    simp only [DecoderBridge.call, DecoderBridge.SubmitTag, GetCommand_dc]
    exact CheckFlushChunk_pipe b
  | SubmitReplayGain info => exact pipeGrowsWith_refl _ _

theorem calls_pipe (cs : List BridgeCall) (b : DecoderBridge)
    (hcs : ∀ c ∈ cs, c.isSubmitReplayGain = false) :
    (b.calls cs).replay_gain_serial = b.replay_gain_serial ∧
      pipeGrowsWith b.replay_gain_serial b.dc.pipe (b.calls cs).dc.pipe := by
  induction cs generalizing b with
  | nil => exact ⟨rfl, pipeGrowsWith_refl _ _⟩
  | cons c cs ih =>
    have hc := hcs c (List.mem_cons_self _ _)
    have hs := call_keeps_serial b c hc
    obtain ⟨i1, i2⟩ := ih (b.call c) (fun c' h' => hcs c' (List.mem_cons_of_mem _ h'))
    rw [hs] at i1 i2
    exact ⟨i1, pipeGrowsWith_trans (call_pipe b c) i2⟩

/-- C1: `CheckRethrowError` throws exactly when the error slot holds an
error, it throws that error and leaves the bridge as it was; `Reset` empties
the slot, so `CheckRethrowError` right after `Reset` returns; and no call
other than `Reset` takes an error out of the slot. -/
theorem CheckRethrowError_Reset_contract (b : DecoderBridge) :
    ((∃ e, b.CheckRethrowError.1 = Except.error e) ↔ b.error ≠ none) ∧
    (∀ e, b.error = some e → b.CheckRethrowError.1 = Except.error e) ∧
    b.CheckRethrowError.2 = b ∧
    b.Reset.error = none ∧
    b.Reset.CheckRethrowError.1 = Except.ok () ∧
    (∀ c : BridgeCall, c.isReset = false → b.error ≠ none → (b.call c).error ≠ none) := by
  refine ⟨?_, ?_, ?_, rfl, rfl, fun c hc he => call_keeps_error b c hc he⟩
  · unfold DecoderBridge.CheckRethrowError
    cases h : b.error with
    | none => simp
    | some e => simp
  · intro e he
    unfold DecoderBridge.CheckRethrowError
    rw [he]
  · unfold DecoderBridge.CheckRethrowError
    split <;> rfl

theorem FlushChunk_running (b : DecoderBridge) :
    b.FlushChunk.initial_seek_running = b.initial_seek_running := by
  unfold DecoderBridge.FlushChunk; split <;> rfl

/-- C3: while the initial seek is running on a bridge whose initial seek is
not essential, `SeekError` leaves the error slot and the control block as
they were (nothing is acknowledged), ends with `initial_seek_pending` and
`initial_seek_running` false, and after any further calls `GetCommand`
returns the pending command of the control block, which is what it returns
on a bridge constructed without an initial seek over that control block. -/
theorem SeekError_nonessential_is_swallowed (b : DecoderBridge)
    (hrun : b.initial_seek_running = true) (hess : b.initial_seek_essential = false) :
    b.SeekError.error = b.error ∧
    b.SeekError.initial_seek_pending = false ∧
    b.SeekError.initial_seek_running = false ∧
    b.SeekError.dc = b.dc ∧
    b.SeekError.current_chunk = b.current_chunk ∧
    (∀ cs : List BridgeCall,
      (b.SeekError.calls cs).GetCommand
          = ((b.SeekError.calls cs).dc.command, b.SeekError.calls cs) ∧
      (b.SeekError.calls cs).GetCommand.1
          = (DecoderBridge.construct (b.SeekError.calls cs).dc false
              b.initial_seek_essential).GetCommand.1) := by
  have h : b.SeekError =
      { b with
        initial_seek_running := false
        initial_seek_pending := false
        seeking := false } := by
    simp only [DecoderBridge.SeekError, hrun, hess, if_true, Bool.false_eq_true, if_false]
  refine ⟨by rw [h], by rw [h], by rw [h], by rw [h], by rw [h], ?_⟩
  intro cs
  have hp : (b.SeekError.calls cs).initial_seek_pending = false :=
    calls_keep_not_pending cs _ (by rw [h])
  have hg : (b.SeekError.calls cs).GetCommand
      = ((b.SeekError.calls cs).dc.command, b.SeekError.calls cs) := by
    simp only [DecoderBridge.GetCommand, hp, Bool.false_and, Bool.false_eq_true, if_false]
  refine ⟨hg, ?_⟩
  rw [hg]
  simp [DecoderBridge.GetCommand, DecoderBridge.construct]

/-- C3 on a bridge constructed with `initial_seek_pending = true` and
`initial_seek_essential = false`, after `Ready` and the first `GetCommand`:
no error, nothing acknowledged, and `GetCommand` answers NONE. -/
theorem SeekError_nonessential_is_swallowed_witness :
    optionalSeekRunning.SeekError.error = none ∧
    optionalSeekRunning.SeekError.dc.acknowledged = 0 ∧
    optionalSeekRunning.SeekError.GetCommand.1 = DecoderCommand.NONE :=
  ⟨(SeekError_nonessential_is_swallowed optionalSeekRunning (by decide) (by decide)).1.trans
     (by decide),
   (congrArg DecoderControl.acknowledged
     (SeekError_nonessential_is_swallowed optionalSeekRunning (by decide)
       (by decide)).2.2.2.1).trans (by decide),
   (congrArg Prod.fst
     ((SeekError_nonessential_is_swallowed optionalSeekRunning (by decide)
       (by decide)).2.2.2.2.2 []).1).trans (by decide)⟩

/-- C4: when the initial seek is pending and the stream is seekable,
`GetCommand` returns SEEK whatever command is pending and sets
`initial_seek_running`, changing nothing else; in every other state it
returns the pending command of the control block and changes nothing. -/
theorem GetCommand_effective_command (b : DecoderBridge) :
    ((b.initial_seek_pending = true ∧ b.dc.seekable = true) →
      b.GetCommand.1 = DecoderCommand.SEEK ∧
      b.GetCommand.2.initial_seek_running = true ∧
      b.GetCommand.2 = { b with initial_seek_running := true }) ∧
    (¬ (b.initial_seek_pending = true ∧ b.dc.seekable = true) →
      b.GetCommand = (b.dc.command, b)) := by
  constructor
  · intro h
    simp only [DecoderBridge.GetCommand, h.1, h.2, Bool.and_self, if_true, and_self]
  · intro h
    have h2 : (b.initial_seek_pending && b.dc.seekable) = false := by
      cases hp : b.initial_seek_pending <;> cases hs : b.dc.seekable <;> simp_all
    simp only [DecoderBridge.GetCommand, h2, Bool.false_eq_true, if_false]

/-- C8 as stated fails at `serialAtMax`: the serial is `UINT_MAX`, and the
`SubmitReplayGain` call made there does not leave it greater than it was:
the increment wraps. -/
theorem SubmitReplayGain_serial_wraps :
    serialAtMax.replay_gain_serial = 4294967295 ∧
    ¬ (serialAtMax.replay_gain_serial
        < (serialAtMax.SubmitReplayGain ⟨1, 2⟩).replay_gain_serial) := by
  refine ⟨by decide, by decide⟩

/-- C8, amended: as long as the serial is below `UINT_MAX`, a
`SubmitReplayGain` call leaves it greater than before and positive; no call
other than `SubmitReplayGain` changes it; and the buffers pushed by any
sequence of calls without a `SubmitReplayGain` all carry the serial the
bridge had before the sequence. -/
theorem SubmitReplayGain_serial_increases (b : DecoderBridge) (info : ReplayGainInfo)
    (hmax : b.replay_gain_serial + 1 < 2 ^ UNSIGNED_BITS) :
    b.replay_gain_serial < (b.SubmitReplayGain info).replay_gain_serial ∧
    0 < (b.SubmitReplayGain info).replay_gain_serial ∧
    (∀ c : BridgeCall, c.isSubmitReplayGain = false →
      (b.call c).replay_gain_serial = b.replay_gain_serial) ∧
    (∀ cs : List BridgeCall, (∀ c ∈ cs, c.isSubmitReplayGain = false) →
      (b.calls cs).replay_gain_serial = b.replay_gain_serial ∧
      pipeGrowsWith b.replay_gain_serial b.dc.pipe (b.calls cs).dc.pipe) := by
  have h : (b.SubmitReplayGain info).replay_gain_serial = b.replay_gain_serial + 1 := by
    show (b.replay_gain_serial + 1) % 2 ^ UNSIGNED_BITS = _
    exact Nat.mod_eq_of_lt hmax
  refine ⟨by omega, by omega, fun c hc => call_keeps_serial b c hc,
    fun cs hcs => calls_pipe cs b hcs⟩

/-- C8, amended, on a freshly constructed bridge: the serial goes from 0
to 1. -/
theorem SubmitReplayGain_serial_increases_witness :
    (DecoderBridge.construct idleControl false false).replay_gain_serial
      < ((DecoderBridge.construct idleControl false false).SubmitReplayGain
          ⟨1, 2⟩).replay_gain_serial :=
  (SubmitReplayGain_serial_increases (DecoderBridge.construct idleControl false false)
    ⟨1, 2⟩ (by decide)).1

end MPD
